import Mathlib

/-!
Shallow embedding of the WaterfallRpc TypeScript library
(`src/waterfallRpc.ts`): the endpoint catalog (`UniversalRpc`), the
health checker (`WaterfallRpc.checkProviders`), the call-dispatch loop
(`WaterfallRpc._perform`) and the session-construction pipeline
(`WaterfallRpc.createProvider` / `setupProviders`).

External effects are made explicit inputs:
  * a provider's `_perform` outcome is a value of `Outcome` (success,
    a `CALL_EXCEPTION` protocol rejection, or any other transport fault);
  * a liveness probe's outcome is `Except Unit Nat` (an error/timeout,
    or the block number returned by `getBlockNumber`);
  * the persisted `.rpcdata` file is a `RPCData` value threaded through;
  * `Math.random`'s draw is the `start` parameter;
  * awaited delays and progress callbacks are recorded as event lists.
-/

namespace Waterfall

/-- Outcome of one underlying `provider._perform(req)` call: success with a
result, a rejection carrying `code === CALL_EXCEPTION`, or any other
thrown error (transport/availability fault).  Errors are identified by a
`Nat` tag. -/
inductive Outcome (α : Type) where
  | ok (result : α)
  | callException (err : Nat)
  | fault (err : Nat)
deriving Repr, DecidableEq

/-- Observable events of one `_perform` call: an awaited backoff delay of
`ms` milliseconds, or an attempt against the provider at pool index `idx`. -/
inductive Ev where
  | delay (ms : Nat)
  | attempt (idx : Nat)
deriving Repr, DecidableEq

/-- Result of the `_perform` dispatch loop: a returned value, a rethrown
`CALL_EXCEPTION`, the first recorded transport error thrown after pool
exhaustion (`throw errors[0]`), or the degenerate `throw errors[0]` on an
empty errors array (an empty pool: `undefined` is thrown). -/
inductive PerformResult (α : Type) where
  | ok (result : α)
  | protocolRejection (err : Nat)
  | exhausted (err : Nat)
  | exhaustedUndefined
deriving Repr, DecidableEq

/-- `throw errors[0]` at the end of the `_perform` loop. -/
def finishPerform {α : Type} (errors : List Nat) : PerformResult α :=
  match errors with
  | [] => PerformResult.exhaustedUndefined
  | e :: _ => PerformResult.exhausted e

/-- The body of the `for (let i = 0; ...)` loop of `WaterfallRpc._perform`.
`fuel` is the number of remaining iterations; at the top-level call it is
`ps.length`, so the loop runs exactly while `i < ps.length` as in the
source (both exit conditions coincide).  `errors` is the `errors` array in
push order.  The index is always in bounds when read, so the `getD`
default is never consulted. -/
def performGo {α : Type} (ps : List (Outcome α)) (start : Nat) :
    Nat → Nat → List Nat → List Ev × PerformResult α
  | 0, _, errors => ([], finishPerform errors)
  | fuel + 1, i, errors =>
    if i < ps.length then
      let idx := (start + i) % ps.length
      let pre : List Ev := if errors.isEmpty then [] else [Ev.delay 5000]
      match ps.getD idx (Outcome.fault 0) with
      | Outcome.ok a => (pre ++ [Ev.attempt idx], PerformResult.ok a)
      | Outcome.callException e => (pre ++ [Ev.attempt idx], PerformResult.protocolRejection e)
      | Outcome.fault e =>
        let rest := performGo ps start fuel (i + 1) (errors ++ [e])
        (pre ++ Ev.attempt idx :: rest.1, rest.2)
    else ([], finishPerform errors)

/-- `WaterfallRpc._perform`: `ps` lists, per pool index, the outcome the
provider at that index would produce for this request; `start` is the
randomly drawn start index `Math.floor(Math.random() * length)`.  Returns
the observable event trace and the final result. -/
def perform {α : Type} (ps : List (Outcome α)) (start : Nat) :
    List Ev × PerformResult α :=
  performGo ps start ps.length 0 []

/-- The pool indices attempted, in order, as recorded in an event trace. -/
def attemptsOf (evs : List Ev) : List Nat :=
  evs.filterMap fun e =>
    match e with
    | Ev.attempt i => some i
    | Ev.delay _ => none

/-- Shape of a `_perform` trace after its first attempt: a sequence of
(fixed 5000 ms delay, attempt) pairs. -/
def delayAttemptAlt : List Ev → Bool
  | [] => true
  | Ev.delay 5000 :: Ev.attempt _ :: r => delayAttemptAlt r
  | _ => false

instance : DecidableEq (Except Unit Nat) := fun a b =>
  match a, b with
  | Except.ok m, Except.ok n =>
    if h : m = n then Decidable.isTrue (by cases h; rfl)
    else Decidable.isFalse (fun hc => h (by cases hc; rfl))
  | Except.ok _, Except.error _ => Decidable.isFalse (fun hc => Except.noConfusion hc)
  | Except.error _, Except.ok _ => Decidable.isFalse (fun hc => Except.noConfusion hc)
  | Except.error u, Except.error v => Decidable.isTrue (by cases u; cases v; rfl)

/-- One health-check candidate: its URL and the outcome of its liveness
probe — `Except.error ()` when `getBlockNumber` rejects or the 5-second
timeout fires first, `Except.ok n` when the probe returns block number
`n`. -/
structure Cand where
  url : String
  probe : Except Unit Nat
deriving Repr, DecidableEq

/-- The `status` field of a progress event. -/
inductive Status where
  | checking
  | success
  | failed
deriving Repr, DecidableEq

/-- A progress event `{current, total, url, status}` passed to the
`onProgress` callback. -/
structure CheckEv where
  current : Nat
  total : Nat
  url : String
  status : Status
deriving Repr, DecidableEq

/-- Errors thrown by the embedded operations. -/
inductive RpcError where
  /-- `throw new Error('No working providers found')` in `checkProviders`. -/
  | noWorkingProviders
  /-- `throw new Error('No RPC configuration found for chainId ...')`. -/
  | unknownNetwork
  /-- The `rpcConfig.rpcs[0].url` access in the constructor on an empty
  `rpcs` array: `rpcs[0]` is `undefined`, so reading `.url` throws. -/
  | indexOutOfBounds
  /-- `data.entries[chainId].rpcs = ...` in `updateWorkingProviders` when
  the entry is absent: property write on `undefined` throws. -/
  | entryMissing
deriving Repr, DecidableEq

/-- The `for` loop of `WaterfallRpc.checkProviders`: emits the `checking`
event for each candidate, then on a probe returning `blockNumber > 0`
pushes the provider and its URL and emits `success`; on a thrown/timed-out
probe emits `failed` and discards the error.  Returns (events,
workingProviders, workingUrls). -/
def checkGo (total : Nat) : Nat → List Cand → List CheckEv × List Cand × List String
  | _, [] => ([], [], [])
  | i, c :: rest =>
    let headEvs : List CheckEv × List Cand × List String :=
      match c.probe with
      | Except.ok n =>
        if n > 0 then ([CheckEv.mk (i + 1) total c.url Status.success], [c], [c.url])
        else ([], [], [])
      | Except.error _ => ([CheckEv.mk (i + 1) total c.url Status.failed], [], [])
    let tail := checkGo total (i + 1) rest
    (CheckEv.mk (i + 1) total c.url Status.checking :: headEvs.1 ++ tail.1,
     headEvs.2.1 ++ tail.2.1, headEvs.2.2 ++ tail.2.2)

/-- `WaterfallRpc.checkProviders`: probes every candidate in input order
and throws `No working providers found` if none survived. -/
def checkProviders (providers : List Cand) :
    List CheckEv × Except RpcError (List Cand × List String) :=
  let r := checkGo providers.length 0 providers
  (r.1, if r.2.1.isEmpty then Except.error RpcError.noWorkingProviders
        else Except.ok (r.2.1, r.2.2))

/-- `nativeCurrency` metadata of a catalog entry. -/
structure NativeCurrency where
  name : String
  symbol : String
  decimals : Nat
deriving Repr, DecidableEq

/-- One entry of the persisted catalog (`RPCConfig` in the source);
`rpcs` keeps only the URLs. -/
structure RPCConfig where
  name : String
  chainId : Nat
  chainSlug : String
  checked : Bool
  nativeCurrency : NativeCurrency
  rpcs : List String
deriving Repr, DecidableEq

/-- The persisted `.rpcdata` document (`RPCData` in the source): the
`chainId ↦ RPCConfig` mapping as an association list, and the fetch
timestamp `date` in milliseconds. -/
structure RPCData where
  entries : List (Nat × RPCConfig)
  date : Int
deriving Repr, DecidableEq

/-- `data.entries[chainId]` (JS object property read). -/
def lookupEntry (entries : List (Nat × RPCConfig)) (chainId : Nat) : Option RPCConfig :=
  match entries with
  | [] => none
  | (k, v) :: rest => if k = chainId then some v else lookupEntry rest chainId

/-- `data.entries[chainId] = cfg` on a present key (JS object property
write; the key is unique in a JS object, so only the first occurrence is
replaced). -/
def setEntry (entries : List (Nat × RPCConfig)) (chainId : Nat) (cfg : RPCConfig) :
    List (Nat × RPCConfig) :=
  match entries with
  | [] => []
  | (k, v) :: rest =>
    if k = chainId then (k, cfg) :: rest else (k, v) :: setEntry rest chainId cfg

/-- The entry mutation of `updateWorkingProviders`:
`entry.rpcs = providers.map(url => ({url})); entry.checked = true`. -/
def markValidated (cfg : RPCConfig) (urls : List String) : RPCConfig :=
  RPCConfig.mk cfg.name cfg.chainId cfg.chainSlug true cfg.nativeCurrency urls

/-- `UniversalRpc.updateWorkingProviders(chainId, providers)`: rereads the
persisted document, replaces the entry's `rpcs` with the given URLs, sets
`checked = true` and writes the document back.  Fails when the entry is
absent (property access on `undefined`). -/
def updateWorkingProviders (data : RPCData) (chainId : Nat) (urls : List String) :
    Except RpcError RPCData :=
  match lookupEntry data.entries chainId with
  | none => Except.error RpcError.entryMissing
  | some cfg =>
    Except.ok (RPCData.mk (setEntry data.entries chainId (markValidated cfg urls)) data.date)

/-- `UniversalRpc.needUpdate(updateInterval)`: true when no `.rpcdata`
file exists, or when `now - storedDate > updateInterval`. -/
def needUpdate (store : Option RPCData) (now updateInterval : Int) : Bool :=
  match store with
  | none => true
  | some data => now - data.date > updateInterval

/-- The default refresh interval: one week in milliseconds
(`7 * 24 * 60 * 60 * 1000`). -/
def updateIntervalDefault : Int := 7 * 24 * 60 * 60 * 1000

/-- The shared refresh rule of `UniversalRpc.init` and
`WaterfallRpc.resetProviders`: when `needUpdate` holds, download a fresh
catalog (`fetched` is what the remote source would deliver) and overwrite
the store; otherwise leave the store untouched.  The boolean records
whether a remote fetch was performed. -/
def resetProviders (store : Option RPCData) (now maxAge : Int) (fetched : RPCData) :
    Bool × Option RPCData :=
  if needUpdate store now maxAge then (true, some fetched) else (false, store)

/-- `UniversalRpc.init`: the refresh rule at the fixed weekly interval. -/
def initCatalog (store : Option RPCData) (now : Int) (fetched : RPCData) :
    Bool × Option RPCData :=
  resetProviders store now updateIntervalDefault fetched

/-- `WaterfallRpc.setupProviders`: when the entry is already `checked`,
use the given providers as-is with no health check; otherwise run
`checkProviders` and, when strictly fewer providers survived than were
given, persist the working URLs via `updateWorkingProviders`.  Returns
the emitted progress events and either the working providers plus the
(possibly updated) persisted document, or the propagated error. -/
def setupProviders (data : RPCData) (chainId : Nat) (rpcConfig : RPCConfig)
    (providers : List Cand) :
    List CheckEv × Except RpcError (List Cand × RPCData) :=
  if rpcConfig.checked then ([], Except.ok (providers, data))
  else
    let r := checkProviders providers
    match r.2 with
    | Except.error e => (r.1, Except.error e)
    | Except.ok (wp, wu) =>
      if wp.length < providers.length then
        match updateWorkingProviders data chainId wu with
        | Except.error e => (r.1, Except.error e)
        | Except.ok data2 => (r.1, Except.ok (wp, data2))
      else (r.1, Except.ok (wp, data))

/-- The `WaterfallRpc` private constructor: looks the entry up, throws
`UnknownNetwork` when absent, then reads `rpcConfig.rpcs[0].url` for the
`super(...)` call — an access that throws when `rpcs` is empty. -/
def waterfallCtor (data : RPCData) (chainId : Nat) : Except RpcError String :=
  match lookupEntry data.entries chainId with
  | none => Except.error RpcError.unknownNetwork
  | some cfg =>
    match cfg.rpcs with
    | [] => Except.error RpcError.indexOutOfBounds
    | u :: _ => Except.ok u

/-- `WaterfallRpc.createProvider(chainId)`: runs the constructor, looks
the entry up again, builds one provider handle per catalog URL (its probe
outcome given by the environment `probes`) and runs `setupProviders`. -/
def createProvider (data : RPCData) (chainId : Nat) (probes : String → Except Unit Nat) :
    List CheckEv × Except RpcError (List Cand × RPCData) :=
  match waterfallCtor data chainId with
  | Except.error e => ([], Except.error e)
  | Except.ok _ =>
    match lookupEntry data.entries chainId with
    | none => ([], Except.error RpcError.unknownNetwork)
    | some cfg =>
      setupProviders data chainId cfg (cfg.rpcs.map fun u => Cand.mk u (probes u))

/-! ### Health-checker lemmas -/

/-- Per-candidate characterization of the events emitted by the
health-check loop, starting at index `i`. -/
theorem checkGo_events (total : Nat) :
    ∀ (ps : List Cand) (i : Nat),
      (checkGo total i ps).1 =
        (List.enumFrom i ps).flatMap fun p =>
          CheckEv.mk (p.1 + 1) total p.2.url Status.checking ::
            (match p.2.probe with
             | Except.ok n =>
               if n > 0 then [CheckEv.mk (p.1 + 1) total p.2.url Status.success] else []
             | Except.error _ => [CheckEv.mk (p.1 + 1) total p.2.url Status.failed]) := by
  intro ps
  induction ps with
  | nil => intro i; simp [checkGo, List.enumFrom]
  | cons c rest ih =>
    intro i
    simp only [checkGo, List.enumFrom, List.flatMap_cons, ih (i + 1)]
    rcases hp : c.probe with u | n
    · simp [hp]
    · by_cases hn : n > 0 <;> simp [hp, hn]

/-- The working providers produced by the health-check loop form a
subsequence of the candidates. -/
theorem checkGo_wp_sublist (total : Nat) :
    ∀ (ps : List Cand) (i : Nat), (checkGo total i ps).2.1.Sublist ps := by
  intro ps
  induction ps with
  | nil => intro i; simp [checkGo]
  | cons c rest ih =>
    intro i
    simp only [checkGo]
    rcases hp : c.probe with u | n
    · simpa [hp] using (ih (i + 1)).cons c
    · by_cases hn : n > 0
      · simpa [hp, hn] using (ih (i + 1)).cons₂ c
      · simpa [hp, hn] using (ih (i + 1)).cons c

/-- The working URLs produced by the health-check loop are exactly the
URLs of the working providers, in order. -/
theorem checkGo_wu_eq_map (total : Nat) :
    ∀ (ps : List Cand) (i : Nat),
      (checkGo total i ps).2.2 = (checkGo total i ps).2.1.map Cand.url := by
  intro ps
  induction ps with
  | nil => intro i; simp [checkGo]
  | cons c rest ih =>
    intro i
    simp only [checkGo]
    rcases hp : c.probe with u | n
    · simp [hp, ih (i + 1)]
    · by_cases hn : n > 0 <;> simp [hp, hn, ih (i + 1)]

/-- If no candidate's probe yields a positive height, the working list is
empty. -/
theorem checkGo_wp_nil (total : Nat) :
    ∀ (ps : List Cand) (i : Nat),
      (∀ c ∈ ps, ∀ n, c.probe = Except.ok n → ¬ 0 < n) →
      (checkGo total i ps).2.1 = [] := by
  intro ps
  induction ps with
  | nil => intro i _; simp [checkGo]
  | cons c rest ih =>
    intro i hfail
    have hrest : ∀ c' ∈ rest, ∀ n, c'.probe = Except.ok n → ¬ 0 < n := by
      intro c' hc' n hn
      exact hfail c' (List.mem_cons_of_mem c hc') n hn
    simp only [checkGo]
    rcases hp : c.probe with u | n
    · simp [hp, ih (i + 1) hrest]
    · have hn : ¬ n > 0 := hfail c (List.mem_cons_self c rest) n hp
      simp [hp, hn, ih (i + 1) hrest]

/-! ### Claims C3, C5, C6 -/

/-- C3 (counterexample): a candidate whose probe returns block height `0`
(no error, no timeout) receives its `checking` event but no terminal
`success`/`failed` event at all — the emitted event list has length 1 and
contains zero terminal events, refuting "exactly one terminal event per
candidate". -/
theorem checkProviders_zero_height_no_terminal :
    (checkProviders [Cand.mk "u" (Except.ok 0)]).1 =
      [CheckEv.mk 1 1 "u" Status.checking] ∧
    ((checkProviders [Cand.mk "u" (Except.ok 0)]).1.countP fun e =>
        match e.status with
        | Status.checking => false
        | Status.success => true
        | Status.failed => true) = 0 := by
  exact ⟨rfl, rfl⟩

/-- C3 (amended): `checkProviders` emits, per candidate in input order,
exactly one `checking` event `{current := i+1, total := N}` followed by a
`success` event iff the probe returned a positive height, by a `failed`
event iff the probe errored or timed out, and by no terminal event at all
when the probe returned a non-positive height; the underlying error is
discarded. -/
theorem checkProviders_events_characterization (ps : List Cand) :
    (checkProviders ps).1 =
      (List.enumFrom 0 ps).flatMap fun p =>
        CheckEv.mk (p.1 + 1) ps.length p.2.url Status.checking ::
          (match p.2.probe with
           | Except.ok n =>
             if n > 0 then [CheckEv.mk (p.1 + 1) ps.length p.2.url Status.success] else []
           | Except.error _ => [CheckEv.mk (p.1 + 1) ps.length p.2.url Status.failed]) :=
  checkGo_events ps.length ps 0

/-- C5: whenever `checkProviders` succeeds, the returned working
providers are an order-preserving subsequence of the input candidates,
and the returned working URLs are exactly the URLs of the working
providers, in the same order. -/
theorem checkProviders_working_sublist (ps wp : List Cand) (wu : List String)
    (evs : List CheckEv) (h : checkProviders ps = (evs, Except.ok (wp, wu))) :
    wp.Sublist ps ∧ wu = wp.map Cand.url := by
  have h2 := congrArg Prod.snd h
  simp only [checkProviders] at h2
  by_cases he : (checkGo ps.length 0 ps).2.1.isEmpty
  · rw [if_pos he] at h2
    exact absurd h2 (by simp)
  · rw [if_neg he] at h2
    have h3 := Except.ok.inj h2
    have hwp : (checkGo ps.length 0 ps).2.1 = wp := congrArg Prod.fst h3
    have hwu : (checkGo ps.length 0 ps).2.2 = wu := congrArg Prod.snd h3
    subst hwp
    subst hwu
    exact ⟨checkGo_wp_sublist ps.length ps 0, checkGo_wu_eq_map ps.length ps 0⟩

/-- C5 witness: concrete instantiation on a two-candidate run. -/
theorem checkProviders_working_sublist_witness :
    ([Cand.mk "b" (Except.ok 9)] : List Cand).Sublist
      [Cand.mk "a" (Except.error ()), Cand.mk "b" (Except.ok 9)] ∧
    ["b"] = [Cand.mk "b" (Except.ok 9)].map Cand.url :=
  checkProviders_working_sublist
    [Cand.mk "a" (Except.error ()), Cand.mk "b" (Except.ok 9)]
    [Cand.mk "b" (Except.ok 9)] ["b"]
    [CheckEv.mk 1 2 "a" Status.checking, CheckEv.mk 1 2 "a" Status.failed,
     CheckEv.mk 2 2 "b" Status.checking, CheckEv.mk 2 2 "b" Status.success] rfl

/-- C6: when no candidate's probe yields a positive height (every probe
errors, times out, or reports a non-positive height), `checkProviders`
fails with `No working providers found`; and this failure propagates
through `createProvider` for a not-yet-checked catalog entry. -/
theorem checkProviders_all_fail (ps : List Cand)
    (hfail : ∀ c ∈ ps, ∀ n, c.probe = Except.ok n → ¬ 0 < n) :
    (checkProviders ps).2 = Except.error RpcError.noWorkingProviders ∧
    (∀ (data : RPCData) (chainId : Nat) (probes : String → Except Unit Nat)
       (cfg : RPCConfig) (u : String) (us : List String),
       lookupEntry data.entries chainId = some cfg → cfg.checked = false →
       cfg.rpcs = u :: us →
       (∀ v ∈ cfg.rpcs, ∀ n, probes v = Except.ok n → ¬ 0 < n) →
       (createProvider data chainId probes).2 =
         Except.error RpcError.noWorkingProviders) := by
  constructor
  · simp [checkProviders, checkGo_wp_nil ps.length ps 0 hfail]
  · intro data chainId probes cfg u us hlook hchk hrpcs hprobes
    have hmap : ∀ c ∈ cfg.rpcs.map fun v => Cand.mk v (probes v),
        ∀ n, c.probe = Except.ok n → ¬ 0 < n := by
      intro c hc n hn
      rcases List.mem_map.mp hc with ⟨v, hv, hcv⟩
      subst hcv
      exact hprobes v hv n hn
    have hnil := checkGo_wp_nil (cfg.rpcs.map fun v => Cand.mk v (probes v)).length
      (cfg.rpcs.map fun v => Cand.mk v (probes v)) 0 hmap
    have hnil' : (checkGo cfg.rpcs.length 0
        (cfg.rpcs.map fun v => Cand.mk v (probes v))).2.1 = [] := by
      simpa using hnil
    have hctor : waterfallCtor data chainId = Except.ok u := by
      simp [waterfallCtor, hlook, hrpcs]
    have hsetup : (setupProviders data chainId cfg
        (cfg.rpcs.map fun v => Cand.mk v (probes v))).2 =
        Except.error RpcError.noWorkingProviders := by
      simp [setupProviders, hchk, checkProviders, hnil']
    simp [createProvider, hctor, hlook, hsetup]

/-- C6 witness: a single erroring candidate, and a concrete catalog whose
only entry's lone endpoint always fails its probe. -/
theorem checkProviders_all_fail_witness :
    (checkProviders [Cand.mk "a" (Except.error ())]).2 =
      Except.error RpcError.noWorkingProviders ∧
    (createProvider
        (RPCData.mk [(1, RPCConfig.mk "net" 1 "slug" false
          (NativeCurrency.mk "Eth" "ETH" 18) ["a"])] 0)
        1 (fun _ => Except.error ())).2 =
      Except.error RpcError.noWorkingProviders := by
  have h := checkProviders_all_fail [Cand.mk "a" (Except.error ())]
    (by
      intro c hc n hn
      have hc' : c = Cand.mk "a" (Except.error ()) := by simpa using hc
      subst hc'
      exact Except.noConfusion hn)
  refine ⟨h.1, h.2 _ 1 _ _ "a" [] rfl rfl rfl ?_⟩
  intro v hv n hn
  exact Except.noConfusion hn

/-! ### Dispatch-loop lemmas -/

theorem getD_mem {α : Type} (l : List α) (n : Nat) (d : α) (h : n < l.length) :
    l.getD n d ∈ l := by
  have hget : l.getD n d = l.get ⟨n, h⟩ := by
    simp [List.getD_eq_getElem?_getD, List.getElem?_eq_getElem h]
  rw [hget]
  exact List.get_mem l n h

theorem attemptsOf_nil : attemptsOf [] = [] := rfl

theorem attemptsOf_cons_delay (ms : Nat) (l : List Ev) :
    attemptsOf (Ev.delay ms :: l) = attemptsOf l := rfl

theorem attemptsOf_cons_attempt (i : Nat) (l : List Ev) :
    attemptsOf (Ev.attempt i :: l) = i :: attemptsOf l := rfl

theorem attemptsOf_append (l1 l2 : List Ev) :
    attemptsOf (l1 ++ l2) = attemptsOf l1 ++ attemptsOf l2 := by
  simp [attemptsOf, List.filterMap_append]

theorem attemptsOf_pre (c : Bool) :
    attemptsOf (if c then [] else [Ev.delay 5000]) = [] := by
  cases c <;> rfl

/-- If every pool member faults, the loop result (entered with a
non-empty errors array) is the head of that array. -/
theorem performGo_fault_result {α : Type} (ps : List (Outcome α)) (start : Nat)
    (hf : ∀ o ∈ ps, ∃ er, o = Outcome.fault er) :
    ∀ (fuel i : Nat) (e : Nat) (es : List Nat),
      (performGo ps start fuel i (e :: es)).2 = PerformResult.exhausted e := by
  intro fuel
  induction fuel with
  | zero => intro i e es; rfl
  | succ fuel ih =>
    intro i e es
    by_cases h : i < ps.length
    · have hidx : (start + i) % ps.length < ps.length :=
        Nat.mod_lt _ (Nat.lt_of_le_of_lt (Nat.zero_le i) h)
      obtain ⟨er, her⟩ :=
        hf _ (getD_mem ps ((start + i) % ps.length) (Outcome.fault 0) hidx)
      simp only [performGo, if_pos h, her]
      simpa using ih (i + 1) e (es ++ [er])
    · simp [performGo, h, finishPerform]

/-- If every pool member faults, the loop from position `i` attempts
exactly the wraparound indices `(start + i + j) % N` for the remaining
iterations. -/
theorem performGo_fault_attempts {α : Type} (ps : List (Outcome α)) (start : Nat)
    (hf : ∀ o ∈ ps, ∃ er, o = Outcome.fault er) :
    ∀ (fuel i : Nat) (es : List Nat), i + fuel = ps.length →
      attemptsOf (performGo ps start fuel i es).1 =
        (List.range fuel).map fun j => (start + (i + j)) % ps.length := by
  intro fuel
  induction fuel with
  | zero => intro i es h; simp [performGo, attemptsOf]
  | succ fuel ih =>
    intro i es h
    have hlt : i < ps.length := by omega
    have hidx : (start + i) % ps.length < ps.length :=
      Nat.mod_lt _ (Nat.lt_of_le_of_lt (Nat.zero_le i) hlt)
    obtain ⟨er, her⟩ :=
      hf _ (getD_mem ps ((start + i) % ps.length) (Outcome.fault 0) hidx)
    simp only [performGo, if_pos hlt, her]
    rw [attemptsOf_append, attemptsOf_pre, attemptsOf_cons_attempt,
      ih (i + 1) (es ++ [er]) (by omega)]
    rw [List.range_succ_eq_map, List.map_cons, List.map_map]
    simp only [List.nil_append, Nat.add_zero, Function.comp]
    have harith : ∀ j : Nat, start + ((i + 1) + j) = start + (i + (j + 1)) := by omega
    simp [harith]

/-- If every pool member faults, `perform` fails with the error of the
provider at the start index. -/
theorem perform_fault_result {α : Type} (ps : List (Outcome α)) (start : Nat)
    (hstart : start < ps.length)
    (hf : ∀ o ∈ ps, ∃ er, o = Outcome.fault er) :
    ∃ e, ps.getD start (Outcome.fault 0) = Outcome.fault e ∧
      (perform ps start).2 = PerformResult.exhausted e := by
  obtain ⟨e, he⟩ := hf _ (getD_mem ps start (Outcome.fault 0) hstart)
  refine ⟨e, he, ?_⟩
  obtain ⟨n, hn⟩ : ∃ n, ps.length = n + 1 := ⟨ps.length - 1, by omega⟩
  have h0 : (perform ps start).2 = (performGo ps start ps.length 0 []).2 := rfl
  rw [h0, hn]
  have hlt : 0 < ps.length := by omega
  have hidx : (start + 0) % ps.length = start := by
    simpa [Nat.add_zero] using Nat.mod_eq_of_lt hstart
  simp only [performGo, if_pos hlt, hidx, he]
  simpa using performGo_fault_result ps start hf n 1 e []

/-! ### Claim C1 -/

/-- C1: when all N pool members fail with transport faults, `perform`
attempts the indices `(start + j) % N` for `j = 0 … N−1` in that order,
visits each pool index exactly once, and fails with the transport error
recorded at the first-attempted index `start` (not the last). -/
theorem perform_pool_exhaustion {α : Type} (ps : List (Outcome α)) (start : Nat)
    (hstart : start < ps.length)
    (hf : ∀ o ∈ ps, ∃ er, o = Outcome.fault er) :
    attemptsOf (perform ps start).1 =
      (List.range ps.length).map (fun j => (start + j) % ps.length) ∧
    (∀ idx, idx < ps.length → (attemptsOf (perform ps start).1).count idx = 1) ∧
    ∃ e, ps.getD start (Outcome.fault 0) = Outcome.fault e ∧
      (perform ps start).2 = PerformResult.exhausted e := by
  have hlen : 0 < ps.length := by omega
  have hatt : attemptsOf (perform ps start).1 =
      (List.range ps.length).map fun j => (start + j) % ps.length := by
    have h0 : (perform ps start).1 = (performGo ps start ps.length 0 []).1 := rfl
    rw [h0, performGo_fault_attempts ps start hf ps.length 0 [] (by omega)]
    simp
  refine ⟨hatt, ?_, perform_fault_result ps start hstart hf⟩
  intro idx hidx
  rw [hatt]
  have hinj : ∀ x ∈ List.range ps.length, ∀ y ∈ List.range ps.length,
      (start + x) % ps.length = (start + y) % ps.length → x = y := by
    intro x hx y hy hxy
    have hx' : x < ps.length := List.mem_range.mp hx
    have hy' : y < ps.length := List.mem_range.mp hy
    have hmod : Nat.ModEq ps.length (start + x) (start + y) := hxy
    have hcancel : Nat.ModEq ps.length x y := Nat.ModEq.add_left_cancel' start hmod
    have : x % ps.length = y % ps.length := hcancel
    rwa [Nat.mod_eq_of_lt hx', Nat.mod_eq_of_lt hy'] at this
  have hnodup : ((List.range ps.length).map fun j => (start + j) % ps.length).Nodup :=
    List.Nodup.map_on hinj (List.nodup_range ps.length)
  have hsub : ((List.range ps.length).map fun j => (start + j) % ps.length) ⊆
      List.range ps.length := by
    intro a ha
    rcases List.mem_map.mp ha with ⟨j, _, hja⟩
    exact List.mem_range.mpr (hja ▸ Nat.mod_lt _ hlen)
  have hperm : ((List.range ps.length).map fun j => (start + j) % ps.length).Perm
      (List.range ps.length) :=
    (List.subperm_of_subset hnodup hsub).perm_of_length_le (by simp)
  rw [hperm.count_eq]
  exact List.count_eq_one_of_mem (List.nodup_range ps.length) (List.mem_range.mpr hidx)

/-- C1 witness: a two-member pool, start index 1, both members faulting;
the attempts are `[1, 0]` and the surfaced error is the one from index 1
(error tag 8), not the last-attempted one. -/
theorem perform_pool_exhaustion_witness :
    attemptsOf (perform ([Outcome.fault 7, Outcome.fault 8] : List (Outcome Nat)) 1).1 =
      [1, 0] ∧
    (perform ([Outcome.fault 7, Outcome.fault 8] : List (Outcome Nat)) 1).2 =
      PerformResult.exhausted 8 := by
  obtain ⟨h1, _, e, he, hr⟩ :=
    perform_pool_exhaustion ([Outcome.fault 7, Outcome.fault 8] : List (Outcome Nat)) 1
      (by decide)
      (by
        intro o ho
        have h2 : o = Outcome.fault 7 ∨ o = Outcome.fault 8 := by simpa using ho
        rcases h2 with rfl | rfl
        · exact ⟨7, rfl⟩
        · exact ⟨8, rfl⟩)
  have he' : Outcome.fault 8 = Outcome.fault e := he
  cases he'
  exact ⟨by rw [h1]; rfl, hr⟩

/-! ### Claim C2 -/

/-- If the members at wraparound positions `i, …, k−1` fault and the
member at position `k` raises `CALL_EXCEPTION`, the loop from position
`i` attempts exactly positions `i … k`, ends its trace at the rejecting
attempt, and rethrows the rejection. -/
theorem performGo_shortCircuit {α : Type} (ps : List (Outcome α)) (start k ce : Nat)
    (hk : k < ps.length)
    (hce : ps.getD ((start + k) % ps.length) (Outcome.fault 0) =
      Outcome.callException ce) :
    ∀ (fuel i : Nat) (es : List Nat), i + fuel = ps.length → i ≤ k →
      (∀ j, i ≤ j → j < k → ∃ e,
        ps.getD ((start + j) % ps.length) (Outcome.fault 0) = Outcome.fault e) →
      attemptsOf (performGo ps start fuel i es).1 =
        (List.range' i (k + 1 - i)).map (fun j => (start + j) % ps.length) ∧
      (performGo ps start fuel i es).2 = PerformResult.protocolRejection ce ∧
      ∃ evs0, (performGo ps start fuel i es).1 =
        evs0 ++ [Ev.attempt ((start + k) % ps.length)] := by
  intro fuel
  induction fuel with
  | zero => intro i es hfuel hik hpre; exact absurd hk (by omega)
  | succ fuel ih =>
    intro i es hfuel hik hpre
    have hlt : i < ps.length := by omega
    rcases Nat.eq_or_lt_of_le hik with rfl | hik'
    · simp only [performGo, if_pos hlt, hce]
      refine ⟨?_, trivial, ⟨_, rfl⟩⟩
      rw [attemptsOf_append, attemptsOf_pre, attemptsOf_cons_attempt, attemptsOf_nil]
      have h1 : i + 1 - i = 1 := by omega
      rw [h1]
      simp [List.range']
    · obtain ⟨e, he⟩ := hpre i (Nat.le_refl i) hik'
      simp only [performGo, if_pos hlt, he]
      obtain ⟨h1, h2, evs0, h3⟩ := ih (i + 1) (es ++ [e]) (by omega) (by omega)
        (fun j hj1 hj2 => hpre j (by omega) hj2)
      refine ⟨?_, h2, ?_⟩
      · rw [attemptsOf_append, attemptsOf_pre, attemptsOf_cons_attempt, h1]
        have h4 : k + 1 - i = (k + 1 - (i + 1)) + 1 := by omega
        rw [h4, List.range'_succ]
        simp
      · exact ⟨(if es.isEmpty then [] else [Ev.delay 5000]) ++
          Ev.attempt ((start + i) % ps.length) :: evs0, by rw [h3]; simp⟩

/-- C2: whenever the first non-faulting member encountered (at wraparound
position `k`) raises a `CALL_EXCEPTION` protocol rejection, `perform`
propagates exactly that rejection, attempts only positions `0 … k` (no
remaining pool member is tried), and the event trace ends at the
rejecting attempt (no backoff delay follows it). -/
theorem perform_protocol_rejection {α : Type} (ps : List (Outcome α)) (start k ce : Nat)
    (hk : k < ps.length)
    (hpre : ∀ j, j < k → ∃ e,
      ps.getD ((start + j) % ps.length) (Outcome.fault 0) = Outcome.fault e)
    (hce : ps.getD ((start + k) % ps.length) (Outcome.fault 0) =
      Outcome.callException ce) :
    (perform ps start).2 = PerformResult.protocolRejection ce ∧
    attemptsOf (perform ps start).1 =
      (List.range (k + 1)).map (fun j => (start + j) % ps.length) ∧
    ∃ evs0, (perform ps start).1 = evs0 ++ [Ev.attempt ((start + k) % ps.length)] := by
  obtain ⟨h1, h2, h3⟩ := performGo_shortCircuit ps start k ce hk hce ps.length 0 []
    (by omega) (by omega) (fun j _ hj => hpre j hj)
  have h0 : (perform ps start).1 = (performGo ps start ps.length 0 []).1 := rfl
  have h0' : (perform ps start).2 = (performGo ps start ps.length 0 []).2 := rfl
  refine ⟨by rw [h0']; exact h2, ?_, by rw [h0]; exact h3⟩
  rw [h0, h1, List.range_eq_range']
  simp

/-- C2 witness: pool `[callException 5, fault 3]`, start index 1: the
member at index 1 faults, the member at index 0 rejects with
`CALL_EXCEPTION`; `perform` fails with that rejection. -/
theorem perform_protocol_rejection_witness :
    (perform ([Outcome.callException 5, Outcome.fault 3] : List (Outcome Nat)) 1).2 =
      PerformResult.protocolRejection 5 ∧
    attemptsOf
      (perform ([Outcome.callException 5, Outcome.fault 3] : List (Outcome Nat)) 1).1 =
      [1, 0] := by
  obtain ⟨h1, h2, -⟩ :=
    perform_protocol_rejection ([Outcome.callException 5, Outcome.fault 3] :
        List (Outcome Nat)) 1 1 5
      (by decide)
      (by
        intro j hj
        have hj0 : j = 0 := by omega
        subst hj0
        exact ⟨3, rfl⟩)
      rfl
  exact ⟨h1, by rw [h2]; rfl⟩

/-! ### Claim C7 -/

/-- Entered with a non-empty errors array, every remaining iteration of
the loop is an exact (fixed 5000 ms delay, attempt) pair. -/
theorem performGo_alt {α : Type} (ps : List (Outcome α)) (start : Nat) :
    ∀ (fuel i : Nat) (es : List Nat), es ≠ [] →
      delayAttemptAlt (performGo ps start fuel i es).1 = true := by
  intro fuel
  induction fuel with
  | zero => intro i es h; rfl
  | succ fuel ih =>
    intro i es hes
    by_cases hlt : i < ps.length
    · have hemp : es.isEmpty = false := by
        cases es with
        | nil => exact absurd rfl hes
        | cons a l => rfl
      simp only [performGo, if_pos hlt, hemp]
      rcases hget : ps.getD ((start + i) % ps.length) (Outcome.fault 0) with a | e | e
      · simp [delayAttemptAlt]
      · simp [delayAttemptAlt]
      · simpa [delayAttemptAlt] using ih (i + 1) (es ++ [e]) (by simp)
    · simp [performGo, hlt, delayAttemptAlt]

/-- C7: in every `perform` call on a non-empty pool, no delay precedes
the first attempt (made at index `start % N`), and the remainder of the
trace consists exactly of (fixed 5000 ms delay, attempt) pairs — i.e.,
one fixed (non-exponential) 5-second delay is awaited immediately before
every attempt made after the first failure, and only then. -/
theorem perform_backoff_shape {α : Type} (ps : List (Outcome α)) (start : Nat)
    (hN : 0 < ps.length) :
    ∃ rest, (perform ps start).1 = Ev.attempt (start % ps.length) :: rest ∧
      delayAttemptAlt rest = true := by
  rcases ps with _ | ⟨p, ps'⟩
  · simp at hN
  · have h0 : (perform (p :: ps') start).1 =
        (performGo (p :: ps') start (ps'.length + 1) 0 []).1 := rfl
    rw [h0]
    have hlt : 0 < (p :: ps').length := hN
    have hidx : (start + 0) % (p :: ps').length = start % (p :: ps').length := by
      rw [Nat.add_zero]
    simp only [performGo, if_pos hlt, hidx, List.isEmpty_nil, if_true]
    rcases hget : (p :: ps').getD (start % (p :: ps').length) (Outcome.fault 0)
      with a | e | e
    · exact ⟨[], by simp, rfl⟩
    · exact ⟨[], by simp, rfl⟩
    · exact ⟨(performGo (p :: ps') start ps'.length 1 ([] ++ [e])).1, by simp,
        performGo_alt (p :: ps') start ps'.length 1 ([] ++ [e]) (by simp)⟩

/-- C7 witness: a three-member pool starting at index 2 whose first two
attempts fault: the trace is attempt 2, delay 5000, attempt 0, delay
5000, attempt 1. -/
theorem perform_backoff_shape_witness :
    ∃ rest,
      (perform ([Outcome.fault 3, Outcome.ok 42, Outcome.fault 4] :
          List (Outcome Nat)) 2).1 = Ev.attempt (2 % 3) :: rest ∧
      delayAttemptAlt rest = true :=
  perform_backoff_shape ([Outcome.fault 3, Outcome.ok 42, Outcome.fault 4] :
    List (Outcome Nat)) 2 (by decide)

/-! ### Catalog lemmas -/

theorem lookupEntry_setEntry_self (chainId : Nat) (v : RPCConfig) :
    ∀ (entries : List (Nat × RPCConfig)) (cfg0 : RPCConfig),
      lookupEntry entries chainId = some cfg0 →
      lookupEntry (setEntry entries chainId v) chainId = some v := by
  intro entries
  induction entries with
  | nil => intro cfg0 h; simp [lookupEntry] at h
  | cons p rest ih =>
    obtain ⟨k, w⟩ := p
    intro cfg0 h
    by_cases hk : k = chainId
    · simp [lookupEntry, setEntry, hk]
    · simp only [lookupEntry, setEntry, if_neg hk] at h ⊢
      exact ih cfg0 h

theorem lookupEntry_setEntry_ne (chainId k : Nat) (v : RPCConfig)
    (hne : k ≠ chainId) :
    ∀ entries : List (Nat × RPCConfig),
      lookupEntry (setEntry entries chainId v) k = lookupEntry entries k := by
  intro entries
  induction entries with
  | nil => simp [setEntry]
  | cons p rest ih =>
    obtain ⟨k', w⟩ := p
    by_cases hk : k' = chainId
    · subst hk
      simp [lookupEntry, setEntry, Ne.symm hne]
    · simp only [setEntry, if_neg hk, lookupEntry]
      by_cases hk2 : k' = k
      · simp [hk2]
      · simp [hk2, ih]

theorem setEntry_idem (chainId : Nat) (v : RPCConfig) :
    ∀ entries : List (Nat × RPCConfig),
      setEntry (setEntry entries chainId v) chainId v = setEntry entries chainId v := by
  intro entries
  induction entries with
  | nil => rfl
  | cons p rest ih =>
    obtain ⟨k, w⟩ := p
    by_cases hk : k = chainId
    · simp [setEntry, hk]
    · simp [setEntry, hk, ih]

/-! ### Claim C9 -/

/-- C9: `updateWorkingProviders` replaces the entry's endpoint list with
exactly the given URLs, sets `checked = true`, persists the new document,
is idempotent (a second identical call returns the same document
unchanged), preserves the entry's other fields (name, slug, native
currency), and leaves every other entry and the catalog date
untouched. -/
theorem updateWorkingProviders_spec (data : RPCData) (chainId : Nat)
    (urls : List String) (cfg : RPCConfig)
    (hlook : lookupEntry data.entries chainId = some cfg) :
    ∃ data2,
      updateWorkingProviders data chainId urls = Except.ok data2 ∧
      lookupEntry data2.entries chainId = some (markValidated cfg urls) ∧
      (markValidated cfg urls).rpcs = urls ∧
      (markValidated cfg urls).checked = true ∧
      (markValidated cfg urls).name = cfg.name ∧
      (markValidated cfg urls).chainSlug = cfg.chainSlug ∧
      (markValidated cfg urls).nativeCurrency = cfg.nativeCurrency ∧
      updateWorkingProviders data2 chainId urls = Except.ok data2 ∧
      (∀ k, k ≠ chainId → lookupEntry data2.entries k = lookupEntry data.entries k) ∧
      data2.date = data.date := by
  refine ⟨RPCData.mk (setEntry data.entries chainId (markValidated cfg urls)) data.date,
    ?_, lookupEntry_setEntry_self chainId (markValidated cfg urls) data.entries cfg hlook,
    rfl, rfl, rfl, rfl, rfl, ?_, ?_, rfl⟩
  · simp [updateWorkingProviders, hlook]
  · have hlook2 : lookupEntry (setEntry data.entries chainId (markValidated cfg urls))
        chainId = some (markValidated cfg urls) :=
      lookupEntry_setEntry_self chainId (markValidated cfg urls) data.entries cfg hlook
    simp only [updateWorkingProviders, hlook2]
    rw [show markValidated (markValidated cfg urls) urls = markValidated cfg urls from rfl]
    rw [setEntry_idem]
  · intro k hk
    exact lookupEntry_setEntry_ne chainId k (markValidated cfg urls) hk data.entries

/-- C9 witness: one-entry catalog, recording `["a"]` twice. -/
theorem updateWorkingProviders_spec_witness :
    ∃ data2,
      updateWorkingProviders
          (RPCData.mk [(1, RPCConfig.mk "net" 1 "slug" false
            (NativeCurrency.mk "Eth" "ETH" 18) ["a", "b"])] 7)
          1 ["a"] = Except.ok data2 ∧
      lookupEntry data2.entries 1 =
        some (markValidated (RPCConfig.mk "net" 1 "slug" false
          (NativeCurrency.mk "Eth" "ETH" 18) ["a", "b"]) ["a"]) ∧
      (markValidated (RPCConfig.mk "net" 1 "slug" false
        (NativeCurrency.mk "Eth" "ETH" 18) ["a", "b"]) ["a"]).rpcs = ["a"] ∧
      (markValidated (RPCConfig.mk "net" 1 "slug" false
        (NativeCurrency.mk "Eth" "ETH" 18) ["a", "b"]) ["a"]).checked = true ∧
      (markValidated (RPCConfig.mk "net" 1 "slug" false
        (NativeCurrency.mk "Eth" "ETH" 18) ["a", "b"]) ["a"]).name =
        (RPCConfig.mk "net" 1 "slug" false
          (NativeCurrency.mk "Eth" "ETH" 18) ["a", "b"]).name ∧
      (markValidated (RPCConfig.mk "net" 1 "slug" false
        (NativeCurrency.mk "Eth" "ETH" 18) ["a", "b"]) ["a"]).chainSlug =
        (RPCConfig.mk "net" 1 "slug" false
          (NativeCurrency.mk "Eth" "ETH" 18) ["a", "b"]).chainSlug ∧
      (markValidated (RPCConfig.mk "net" 1 "slug" false
        (NativeCurrency.mk "Eth" "ETH" 18) ["a", "b"]) ["a"]).nativeCurrency =
        (RPCConfig.mk "net" 1 "slug" false
          (NativeCurrency.mk "Eth" "ETH" 18) ["a", "b"]).nativeCurrency ∧
      updateWorkingProviders data2 1 ["a"] = Except.ok data2 ∧
      (∀ k, k ≠ 1 → lookupEntry data2.entries k =
        lookupEntry (RPCData.mk [(1, RPCConfig.mk "net" 1 "slug" false
          (NativeCurrency.mk "Eth" "ETH" 18) ["a", "b"])] 7).entries k) ∧
      data2.date = (RPCData.mk [(1, RPCConfig.mk "net" 1 "slug" false
        (NativeCurrency.mk "Eth" "ETH" 18) ["a", "b"])] 7).date :=
  updateWorkingProviders_spec
    (RPCData.mk [(1, RPCConfig.mk "net" 1 "slug" false
      (NativeCurrency.mk "Eth" "ETH" 18) ["a", "b"])] 7)
    1 ["a"]
    (RPCConfig.mk "net" 1 "slug" false (NativeCurrency.mk "Eth" "ETH" 18) ["a", "b"])
    rfl

/-! ### Claim C4 -/

/-- C4: on an entry not yet validated, when the health check succeeds
with a strict subset of the candidates, `setupProviders` persists exactly
the working URLs for that network and marks the entry validated; a later
session on the updated entry skips health-checking entirely (no progress
events) and uses its provider list as-is. -/
theorem setupProviders_records_validated (data : RPCData) (chainId : Nat)
    (cfg cfg0 : RPCConfig) (providers wp : List Cand) (wu : List String)
    (evs : List CheckEv)
    (hchk : cfg.checked = false)
    (hrun : checkProviders providers = (evs, Except.ok (wp, wu)))
    (hstrict : wp.length < providers.length)
    (hlook : lookupEntry data.entries chainId = some cfg0) :
    ∃ data2,
      setupProviders data chainId cfg providers = (evs, Except.ok (wp, data2)) ∧
      lookupEntry data2.entries chainId = some (markValidated cfg0 wu) ∧
      (markValidated cfg0 wu).rpcs = wu ∧
      (markValidated cfg0 wu).checked = true ∧
      (∀ providers2, setupProviders data2 chainId (markValidated cfg0 wu) providers2 =
        ([], Except.ok (providers2, data2))) := by
  refine ⟨RPCData.mk (setEntry data.entries chainId (markValidated cfg0 wu)) data.date,
    ?_, lookupEntry_setEntry_self chainId (markValidated cfg0 wu) data.entries cfg0 hlook,
    rfl, rfl, ?_⟩
  · simp [setupProviders, hchk, hrun, hstrict, updateWorkingProviders, hlook]
  · intro providers2
    simp [setupProviders, markValidated]

/-- C4 witness: a catalog whose unvalidated entry has candidates
`["a", "b"]`; `"a"` passes the probe and `"b"` fails, so the working set
is a strict subset and gets recorded. -/
theorem setupProviders_records_validated_witness :
    ∃ data2,
      setupProviders
          (RPCData.mk [(1, RPCConfig.mk "net" 1 "slug" false
            (NativeCurrency.mk "Eth" "ETH" 18) ["a", "b"])] 7)
          1
          (RPCConfig.mk "net" 1 "slug" false
            (NativeCurrency.mk "Eth" "ETH" 18) ["a", "b"])
          [Cand.mk "a" (Except.ok 5), Cand.mk "b" (Except.error ())] =
        ([CheckEv.mk 1 2 "a" Status.checking, CheckEv.mk 1 2 "a" Status.success,
          CheckEv.mk 2 2 "b" Status.checking, CheckEv.mk 2 2 "b" Status.failed],
         Except.ok ([Cand.mk "a" (Except.ok 5)], data2)) ∧
      lookupEntry data2.entries 1 =
        some (markValidated (RPCConfig.mk "net" 1 "slug" false
          (NativeCurrency.mk "Eth" "ETH" 18) ["a", "b"]) ["a"]) ∧
      (markValidated (RPCConfig.mk "net" 1 "slug" false
        (NativeCurrency.mk "Eth" "ETH" 18) ["a", "b"]) ["a"]).rpcs = ["a"] ∧
      (markValidated (RPCConfig.mk "net" 1 "slug" false
        (NativeCurrency.mk "Eth" "ETH" 18) ["a", "b"]) ["a"]).checked = true ∧
      (∀ providers2, setupProviders data2 1
          (markValidated (RPCConfig.mk "net" 1 "slug" false
            (NativeCurrency.mk "Eth" "ETH" 18) ["a", "b"]) ["a"]) providers2 =
        ([], Except.ok (providers2, data2))) :=
  setupProviders_records_validated
    (RPCData.mk [(1, RPCConfig.mk "net" 1 "slug" false
      (NativeCurrency.mk "Eth" "ETH" 18) ["a", "b"])] 7)
    1
    (RPCConfig.mk "net" 1 "slug" false (NativeCurrency.mk "Eth" "ETH" 18) ["a", "b"])
    (RPCConfig.mk "net" 1 "slug" false (NativeCurrency.mk "Eth" "ETH" 18) ["a", "b"])
    [Cand.mk "a" (Except.ok 5), Cand.mk "b" (Except.error ())]
    [Cand.mk "a" (Except.ok 5)] ["a"]
    [CheckEv.mk 1 2 "a" Status.checking, CheckEv.mk 1 2 "a" Status.success,
     CheckEv.mk 2 2 "b" Status.checking, CheckEv.mk 2 2 "b" Status.failed]
    rfl rfl (by decide) rfl

/-! ### Claim C8 -/

/-- C8: the shared refresh rule of `init` and `resetProviders` performs a
remote fetch if and only if no persisted catalog exists or
`now − fetchedAt` exceeds the given max age, overwrites the store with
the fetched catalog when it fetches, and is otherwise a no-op leaving the
persisted catalog unchanged; `init` is this rule at the fixed weekly
interval. -/
theorem refresh_iff_stale (store : Option RPCData) (now maxAge : Int)
    (fetched : RPCData) :
    ((resetProviders store now maxAge fetched).1 = true ↔
      store = none ∨ ∃ d, store = some d ∧ now - d.date > maxAge) ∧
    ((resetProviders store now maxAge fetched).1 = true →
      (resetProviders store now maxAge fetched).2 = some fetched) ∧
    ((resetProviders store now maxAge fetched).1 = false →
      resetProviders store now maxAge fetched = (false, store)) ∧
    initCatalog store now fetched = resetProviders store now updateIntervalDefault fetched := by
  refine ⟨?_, ?_, ?_, rfl⟩ <;> rcases store with _ | d
  · simp [resetProviders, needUpdate]
  · by_cases hP : now - d.date > maxAge <;>
      simp [resetProviders, needUpdate, hP]
  · simp [resetProviders, needUpdate]
  · by_cases hP : now - d.date > maxAge <;>
      simp [resetProviders, needUpdate, hP]
  · simp [resetProviders, needUpdate]
  · by_cases hP : now - d.date > maxAge <;>
      simp [resetProviders, needUpdate, hP]

/-- C8 witness: an absent catalog triggers a fetch; a catalog fetched 5 ms
ago with a 10 ms max age is left untouched. -/
theorem refresh_iff_stale_witness :
    (resetProviders none 0 updateIntervalDefault (RPCData.mk [] 0)).1 = true ∧
    resetProviders (some (RPCData.mk [] 0)) 5 10 (RPCData.mk [] 99) =
      (false, some (RPCData.mk [] 0)) := by
  have h1 := refresh_iff_stale none 0 updateIntervalDefault (RPCData.mk [] 0)
  have h2 := refresh_iff_stale (some (RPCData.mk [] 0)) 5 10 (RPCData.mk [] 99)
  exact ⟨h1.1.mpr (Or.inl rfl), h2.2.2.1 (by decide)⟩

/-! ### Claim C10 -/

/-- C10: for a catalog entry whose endpoint list is empty,
`createProvider` fails inside the constructor's `rpcs[0].url` access,
before any health check runs (no progress events are emitted), and the
error is neither `UnknownNetwork` nor `NoWorkingEndpoints`. -/
theorem createProvider_empty_endpoints (data : RPCData) (chainId : Nat)
    (probes : String → Except Unit Nat) (cfg : RPCConfig)
    (hlook : lookupEntry data.entries chainId = some cfg)
    (hempty : cfg.rpcs = []) :
    createProvider data chainId probes = ([], Except.error RpcError.indexOutOfBounds) ∧
    RpcError.indexOutOfBounds ≠ RpcError.unknownNetwork ∧
    RpcError.indexOutOfBounds ≠ RpcError.noWorkingProviders := by
  refine ⟨?_, by decide, by decide⟩
  simp [createProvider, waterfallCtor, hlook, hempty]

/-- C10 witness: a one-entry catalog whose entry has no endpoints. -/
theorem createProvider_empty_endpoints_witness :
    createProvider
        (RPCData.mk [(1, RPCConfig.mk "net" 1 "slug" false
          (NativeCurrency.mk "Eth" "ETH" 18) [])] 0)
        1 (fun _ => Except.ok 5) =
      ([], Except.error RpcError.indexOutOfBounds) ∧
    RpcError.indexOutOfBounds ≠ RpcError.unknownNetwork ∧
    RpcError.indexOutOfBounds ≠ RpcError.noWorkingProviders :=
  createProvider_empty_endpoints
    (RPCData.mk [(1, RPCConfig.mk "net" 1 "slug" false
      (NativeCurrency.mk "Eth" "ETH" 18) [])] 0)
    1 (fun _ => Except.ok 5)
    (RPCConfig.mk "net" 1 "slug" false (NativeCurrency.mk "Eth" "ETH" 18) [])
    rfl rfl

end Waterfall
